import Mathlib

/-!
Shallow embedding of the rahzom two-way folder synchroniser (Rust) in Lean 4.

Modelling conventions, shared by all definitions below:

* Relative paths are modelled as `List String` (the sequence of normal path
  components, none of which contains a separator); the string form of a path
  is the components joined with `/`.  This matches `Path`/`PathBuf` for the
  clean relative paths the scanner produces.
* Byte strings are compared through `Char.toNat`; for valid UTF-8 this agrees
  with Rust's byte-wise `OsStr`/`str` ordering, since UTF-8 preserves
  code-point order.
* Timestamps (`DateTime<Utc>` restricted to whole seconds, the granularity at
  which the code compares them via `num_seconds()`) are modelled as `Int`
  seconds.  `u64`/`usize` sizes are `Nat`.
* `HashMap`/`HashSet` iteration order is unspecified in Rust; functions of the
  source that iterate such containers take the iteration order as an explicit
  list parameter, constrained (in theorems) to be a permutation of the key
  set.  `ASCII` case folding models `str::to_lowercase` (the claims only
  involve ASCII paths).
* Filesystem I/O appears as explicit data: the relevant `stat` results and
  file contents are passed in, and fallible operations take their I/O outcome
  as a parameter where the source can fail.
-/

/-- Lower-cases an ASCII letter, models `char::to_lowercase` on ASCII input. -/
def lowerChar (c : Char) : Char :=
  if 65 ≤ c.toNat ∧ c.toNat ≤ 90 then Char.ofNat (c.toNat + 32) else c

/-- Models `str::to_lowercase` for ASCII strings. -/
def lowerStr (s : String) : String := ⟨s.data.map lowerChar⟩

/-- Renders a component list as the relative path string, the result of
`Path::to_string_lossy` (with `/` separators) on a clean relative path. -/
def joinPath : List String → String
  | [] => ""
  | [x] => x
  | x :: xs => x ++ "/" ++ joinPath xs

/-- Number of components of a rendered relative path string: models
`Path::components().count()` on the paths produced by the scanner/differ. -/
def pathDepth (s : String) : Nat :=
  if s.data.isEmpty then 0 else s.data.countP (fun c => c == '/') + 1

/-- Code-point key of a string; lexicographic order on these keys models
Rust's byte-wise `str`/`OsStr` comparison. -/
def strKey (s : String) : List Nat := s.data.map Char.toNat

/-- Componentwise key of a path; lexicographic order on these keys models
`Path::cmp`, which compares the component sequences. -/
def pathKey (p : List String) : List (List Nat) := p.map strKey

/-- Byte-wise comparison of two rendered path strings (the order the spec
claims for scan results). -/
def strLe (a b : String) : Prop := strKey a ≤ strKey b

/-- Rust `Path` order (`a.path.cmp(&b.path)`): lexicographic over components. -/
def pathLe (a b : List String) : Prop := pathKey a ≤ pathKey b

instance : DecidableRel strLe := fun a b => by unfold strLe; infer_instance

instance : DecidableRel pathLe := fun a b => by unfold pathLe; infer_instance

/-! ## `sync/utils.rs` -/

/-- FAT32 mtime tolerance in seconds (`FAT32_TOLERANCE_SECS`). -/
def FAT32_TOLERANCE_SECS : Int := 2

/-- Absolute difference of two timestamps in whole seconds:
`(a - b).num_seconds().abs()` on whole-second timestamps. -/
def timeDiffSecs (a b : Int) : Int := (a - b).natAbs

/-! ## `sync/metadata.rs` data model -/

/-- Platform-specific file attributes (`FileAttributes`). -/
structure FileAttributes where
  unix_mode : Option Nat
  windows_readonly : Option Bool
  windows_hidden : Option Bool
deriving DecidableEq

/-- Default `FileAttributes` (all fields absent). -/
def FileAttributes.default : FileAttributes := ⟨none, none, none⟩

/-- State of a single file as recorded during last sync (`FileState`). -/
structure FileState where
  path : String
  size : Nat
  mtime : Int
  hash : Option String
  attributes : FileAttributes
  last_synced : Int
deriving DecidableEq

/-- Record of a deleted file (`DeletedFile`). -/
structure DeletedFile where
  path : String
  size : Nat
  mtime : Int
  hash : Option String
  deleted_at : Int
deriving DecidableEq

/-- Complete sync metadata for one side (`SyncMetadata`); the `load`/`save`
I/O wrappers are not modelled, the claims concern the in-memory value. -/
structure SyncMetadata where
  files : List FileState
  deleted : List DeletedFile
  last_sync : Option Int
deriving DecidableEq

/-- `SyncMetadata::new` / `Default`. -/
def SyncMetadata.new : SyncMetadata := ⟨[], [], none⟩

/-- `SyncMetadata::find_file`. -/
def find_file (m : SyncMetadata) (path : String) : Option FileState :=
  m.files.find? (fun f => f.path == path)

/-- `SyncMetadata::find_deleted`. -/
def find_deleted (m : SyncMetadata) (path : String) : Option DeletedFile :=
  m.deleted.find? (fun d => d.path == path)

/-- `SyncMetadata::mark_deleted`: drop the path from both lists, then push the
record onto `deleted`. -/
def mark_deleted (m : SyncMetadata) (file : DeletedFile) : SyncMetadata :=
  { files := m.files.filter (fun f => !(f.path == file.path))
    deleted := m.deleted.filter (fun d => !(d.path == file.path)) ++ [file]
    last_sync := m.last_sync }

/-- Replaces the first list element whose `path` equals `f.path` by `f`
(`iter_mut().find` followed by assignment in `upsert_file`). -/
def replace_first : List FileState → FileState → List FileState
  | [], _ => []
  | x :: xs, f => if x.path == f.path then f :: xs else x :: replace_first xs f

/-- `SyncMetadata::upsert_file`: drop the path from `deleted`, then update the
existing `files` entry or push a new one. -/
def upsert_file (m : SyncMetadata) (file : FileState) : SyncMetadata :=
  let deleted := m.deleted.filter (fun d => !(d.path == file.path))
  if m.files.any (fun f => f.path == file.path) then
    { files := replace_first m.files file, deleted := deleted, last_sync := m.last_sync }
  else
    { files := m.files ++ [file], deleted := deleted, last_sync := m.last_sync }

/-! ## `sync/scanner.rs` data model -/

/-- A single scanned entry (`scanner::FileEntry`); `path` is relative to the
scanned root. -/
structure ScanFileEntry where
  path : List String
  size : Nat
  mtime : Int
  is_dir : Bool
  hash : Option String
  attributes : FileAttributes
deriving DecidableEq

/-- Result of scanning a directory (`ScanResult`); `root`, `scan_time` and the
`skipped` diagnostics are omitted, no claim depends on them. -/
structure ScanResult where
  entries : List ScanFileEntry
deriving DecidableEq

/-- Comparison used by the scanner's final sort:
`entries.sort_by(|a, b| a.path.cmp(&b.path))`. -/
def scanEntryLe (a b : ScanFileEntry) : Prop := pathLe a.path b.path

instance : DecidableRel scanEntryLe := fun a b => by unfold scanEntryLe; infer_instance

instance : IsTotal ScanFileEntry scanEntryLe :=
  ⟨fun a b => le_total (pathKey a.path) (pathKey b.path)⟩

instance : IsTrans ScanFileEntry scanEntryLe :=
  ⟨fun _ _ _ hab hbc => le_trans hab hbc⟩

/-- The scanner's post-walk sort of `entries` (`scan_with_exclusions`,
`entries.sort_by(|a, b| a.path.cmp(&b.path))`); Rust's stable slice sort and
insertion sort agree for a total preorder comparator. -/
def sort_entries (entries : List ScanFileEntry) : List ScanFileEntry :=
  List.insertionSort scanEntryLe entries

/-! ## `sync/differ.rs` data model -/

/-- Information about a file for conflict reporting (`FileInfo`). -/
structure FileInfo where
  size : Nat
  mtime : Int
  hash : Option String
deriving DecidableEq

/-- Reason for a sync conflict (`ConflictReason`). -/
inductive ConflictReason where
  | bothModified
  | modifiedAndDeleted
  | existsVsDeleted
  | caseConflict
deriving DecidableEq

/-- Action to perform during synchronization (`SyncAction`); paths are kept in
their rendered string form, as the differ stores `PathBuf::from(path)` of its
string keys. -/
inductive SyncAction where
  | copyToRight (path : String) (size : Nat)
  | copyToLeft (path : String) (size : Nat)
  | deleteRight (path : String)
  | deleteLeft (path : String)
  | createDirRight (path : String)
  | createDirLeft (path : String)
  | conflict (path : String) (reason : ConflictReason)
      (left : Option FileInfo) (right : Option FileInfo)
  | skip (path : String) (reason : String)
deriving DecidableEq

/-- `SyncAction::path`. -/
def SyncAction.path : SyncAction → String
  | .copyToRight p _ => p
  | .copyToLeft p _ => p
  | .deleteRight p => p
  | .deleteLeft p => p
  | .createDirRight p => p
  | .createDirLeft p => p
  | .conflict p _ _ _ => p
  | .skip p _ => p

/-- Whether an action is one of the directory creations. -/
def SyncAction.isCreateDir : SyncAction → Bool
  | .createDirRight _ => true
  | .createDirLeft _ => true
  | _ => false

/-- Whether an action is one of the copies. -/
def SyncAction.isCopy : SyncAction → Bool
  | .copyToRight _ _ => true
  | .copyToLeft _ _ => true
  | _ => false

/-- Whether an action is a `Skip`. -/
def SyncAction.isSkip : SyncAction → Bool
  | .skip _ _ => true
  | _ => false

/-- Whether an action is a `Conflict`. -/
def SyncAction.isConflict : SyncAction → Bool
  | .conflict _ _ _ _ => true
  | _ => false

/-- Whether an action is a delete. -/
def SyncAction.isDelete : SyncAction → Bool
  | .deleteRight _ => true
  | .deleteLeft _ => true
  | _ => false

/-- The differ's private per-file record (`differ::FileEntry`). -/
structure DFileEntry where
  size : Nat
  mtime : Int
  is_dir : Bool
  hash : Option String
deriving DecidableEq

/-- Conversion of a scanned entry into the differ's lookup-map value. -/
def toDEntry (e : ScanFileEntry) : DFileEntry := ⟨e.size, e.mtime, e.is_dir, e.hash⟩

/-- Map key of a scanned entry: `e.path.to_string_lossy().to_string()`. -/
def entryKey (e : ScanFileEntry) : String := joinPath e.path

/-- One `HashMap::insert`: overwrite the value of an existing key, otherwise
add the binding. -/
def map_insert (m : List (String × DFileEntry)) (k : String) (v : DFileEntry) :
    List (String × DFileEntry) :=
  if m.any (fun p => p.1 == k) then
    m.map (fun p => if p.1 == k then (k, v) else p)
  else
    m ++ [(k, v)]

/-- The key-to-entry map the differ builds from one scan (`left_files` /
`right_files`); an association list with distinct keys, whose iteration order
is supplied separately. -/
def build_map (entries : List ScanFileEntry) : List (String × DFileEntry) :=
  entries.foldl (fun m e => map_insert m (entryKey e) (toDEntry e)) []

/-- `HashMap::get`. -/
def map_find (m : List (String × DFileEntry)) (k : String) : Option DFileEntry :=
  (m.find? (fun p => p.1 == k)).map (fun p => p.2)

/-- Key set of a lookup map. -/
def mapKeys (m : List (String × DFileEntry)) : List String := m.map (fun p => p.1)

/-- Checks if two files are equal considering FAT32 time tolerance
(`files_equal`). -/
def files_equal (a b : DFileEntry) : Bool :=
  if a.size ≠ b.size then false
  else if FAT32_TOLERANCE_SECS < timeDiffSecs a.mtime b.mtime then false
  else
    match a.hash, b.hash with
    | some ha, some hb => ha == hb
    | _, _ => true

/-- Checks if a file has changed since the recorded state
(`file_changed_since`). -/
def file_changed_since (current : DFileEntry) (prev : FileState) : Bool :=
  if current.size ≠ prev.size then true
  else if FAT32_TOLERANCE_SECS < timeDiffSecs current.mtime prev.mtime then true
  else
    match current.hash, prev.hash with
    | some hc, some hp => hc != hp
    | _, _ => false

/-- `FileInfo` extracted from a lookup-map entry. -/
def toFileInfo (e : DFileEntry) : FileInfo := ⟨e.size, e.mtime, e.hash⟩

/-- The pattern `prev.is_none() || file_changed_since(cur, prev.unwrap())` used
repeatedly inside `determine_action`. -/
def changed_since (cur : DFileEntry) : Option FileState → Bool
  | none => true
  | some prev => file_changed_since cur prev

/-- Determines what action to take for a specific path (`determine_action`). -/
def determine_action (path : String) (left right : Option DFileEntry)
    (left_prev right_prev : Option FileState)
    (right_deleted left_deleted : Bool) : SyncAction :=
  match left, right with
  | some l, some r =>
    if l.is_dir && r.is_dir then
      .skip path "Directory exists on both sides"
    else if files_equal l r then
      .skip path "Files are identical"
    else
      match changed_since l left_prev, changed_since r right_prev with
      | true, true =>
        .conflict path .bothModified (some (toFileInfo l)) (some (toFileInfo r))
      | true, false => .copyToRight path l.size
      | false, true => .copyToLeft path r.size
      | false, false => .skip path "No changes detected"
  | some l, none =>
    if l.is_dir then
      .createDirRight path
    else if right_deleted then
      .conflict path .existsVsDeleted (some (toFileInfo l)) none
    else if right_prev.isSome then
      if changed_since l left_prev then
        .conflict path .modifiedAndDeleted (some (toFileInfo l)) none
      else
        .deleteLeft path
    else
      .copyToRight path l.size
  | none, some r =>
    if r.is_dir then
      .createDirLeft path
    else if left_deleted then
      .conflict path .existsVsDeleted none (some (toFileInfo r))
    else if left_prev.isSome then
      if changed_since r right_prev then
        .conflict path .modifiedAndDeleted none (some (toFileInfo r))
      else
        .deleteRight path
    else
      .copyToLeft path r.size
  | none, none => .skip path "File not found on either side"

/-- Membership test of the case-conflict `HashSet` built by
`detect_case_conflicts`: a path is inserted when it shares a lower-cased form
with a distinct path on its own side, with a distinct path on the other side
(left paths only for the cross-side rule), or is a right-side member of a
same-side collision. -/
def is_case_conflict_key (lks rks : List String) (p : String) : Bool :=
  (p ∈ lks && lks.any (fun q => !(q == p) && lowerStr q == lowerStr p)) ||
  (p ∈ rks && rks.any (fun q => !(q == p) && lowerStr q == lowerStr p)) ||
  (p ∈ lks && rks.any (fun q => !(q == p) && lowerStr q == lowerStr p))

/-- One listing of the case-conflict set (`detect_case_conflicts` returns its
`HashSet` in arbitrary order; theorems quantify over permutations of this
list). -/
def case_conflict_list (lks rks : List String) : List String :=
  ((lks ++ rks).dedup).filter (fun p => is_case_conflict_key lks rks p)

/-- The `Conflict` action built for one case-conflict path: the right-side
info is looked up among the right keys (searched in iteration order `ro`) at a
path differing only in case, with `right_files.get(path)` as fallback. -/
def conflict_action_for (lm rm : List (String × DFileEntry)) (ro : List String)
    (p : String) : SyncAction :=
  let left_entry := map_find lm p
  let right_entry :=
    match ro.find? (fun q => lowerStr q == lowerStr p && !(q == p)) with
    | some q => map_find rm q
    | none => map_find rm p
  .conflict p .caseConflict (left_entry.map toFileInfo) (right_entry.map toFileInfo)

/-- The case-conflict loop of `diff`, emitting one `Conflict` per set element. -/
def conflict_actions (lm rm : List (String × DFileEntry)) (ro co : List String) :
    List SyncAction :=
  co.map (conflict_action_for lm rm ro)

/-- Body of the left-side loop of `diff` for one key of `left_files`: skipped
when the key lower-cases like a case conflict, otherwise `determine_action`.
`none` on a string that is not a key (the loop only visits keys). -/
def left_step (lm rm : List (String × DFileEntry)) (left_meta right_meta : SyncMetadata)
    (co : List String) (p : String) : Option SyncAction :=
  match map_find lm p with
  | none => none
  | some left_entry =>
    if co.any (fun c => lowerStr c == lowerStr p) then none
    else
      some (determine_action p (some left_entry) (map_find rm p)
        (find_file left_meta p) (find_file right_meta p)
        (find_deleted right_meta p).isSome false)

/-- Body of the right-side loop of `diff` for one key of `right_files`:
skipped when the key is also in `left_files` or lower-cases like a case
conflict. -/
def right_step (lm rm : List (String × DFileEntry)) (left_meta right_meta : SyncMetadata)
    (co : List String) (p : String) : Option SyncAction :=
  match map_find rm p with
  | none => none
  | some right_entry =>
    if (map_find lm p).isSome then none
    else if co.any (fun c => lowerStr c == lowerStr p) then none
    else
      some (determine_action p none (some right_entry)
        (find_file left_meta p) (find_file right_meta p)
        false (find_deleted left_meta p).isSome)

/-- The final sort of `diff` (`actions.sort_by(|a, b| b_is_dir.cmp(&a_is_dir))`):
a stable sort on a two-valued key, i.e. the stable partition that moves the
`CreateDir*` actions to the front. -/
def sort_dirs_first (l : List SyncAction) : List SyncAction :=
  l.filter (fun a => a.isCreateDir) ++ l.filter (fun a => !a.isCreateDir)

/-- The action list produced by `diff`.  `lo`, `ro` are the iteration orders
of the `left_files` / `right_files` hash maps and `co` the iteration order of
the case-conflict set; the source leaves these orders unspecified, theorems
constrain them to enumerate exactly the respective key sets. -/
def diff_actions (left_scan right_scan : ScanResult)
    (left_meta right_meta : SyncMetadata) (lo ro co : List String) :
    List SyncAction :=
  let lm := build_map left_scan.entries
  let rm := build_map right_scan.entries
  sort_dirs_first
    (conflict_actions lm rm ro co ++
     lo.filterMap (left_step lm rm left_meta right_meta co) ++
     ro.filterMap (right_step lm rm left_meta right_meta co))

/-! ## `sync/executor.rs` -/

/-- Classification of sync errors (`SyncErrorKind`). -/
inductive SyncErrorKind where
  | fileLocked
  | permissionDenied
  | diskFull
  | fileChanged
  | pathTooLong
  | invalidPath
  | notFound
  | ioError
deriving DecidableEq

/-- Rust `usize::MAX` (64-bit targets). -/
def USIZE_MAX : Nat := 2 ^ 64 - 1

/-- `Executor::action_order`: the sort key `(u8, usize, bool)`, with the
`bool` encoded as `0`/`1`.  Directories first by ascending depth, then
copies, then deletes by `usize::MAX - depth`, then `Skip`/`Conflict`. -/
def action_order (a : SyncAction) : Nat × Nat × Nat :=
  match a with
  | .createDirLeft p => (0, pathDepth p, 0)
  | .createDirRight p => (0, pathDepth p, 0)
  | .copyToLeft p _ => (1, pathDepth p, 0)
  | .copyToRight p _ => (1, pathDepth p, 0)
  | .deleteLeft p => (2, USIZE_MAX - pathDepth p, 1)
  | .deleteRight p => (2, USIZE_MAX - pathDepth p, 1)
  | .skip _ _ => (3, 0, 0)
  | .conflict _ _ _ _ => (3, 0, 0)

/-- Lexicographic order on the executor's sort keys, the `Ord` instance of a
Rust `(u8, usize, bool)` tuple. -/
def tripleLe (x y : Nat × Nat × Nat) : Prop :=
  x.1 < y.1 ∨ (x.1 = y.1 ∧ (x.2.1 < y.2.1 ∨ (x.2.1 = y.2.1 ∧ x.2.2 ≤ y.2.2)))

instance : DecidableRel tripleLe := fun x y => by unfold tripleLe; infer_instance

instance : IsTotal (Nat × Nat × Nat) tripleLe := ⟨fun x y => by unfold tripleLe; omega⟩

instance : IsTrans (Nat × Nat × Nat) tripleLe := ⟨fun x y z => by unfold tripleLe; omega⟩

/-- Comparator of `Executor::sort_actions`. -/
def actionLe (a b : SyncAction) : Prop := tripleLe (action_order a) (action_order b)

instance : DecidableRel actionLe := fun a b => by unfold actionLe; infer_instance

instance : IsTotal SyncAction actionLe :=
  ⟨fun a b => IsTotal.total (r := tripleLe) (action_order a) (action_order b)⟩

instance : IsTrans SyncAction actionLe :=
  ⟨fun _ _ _ hab hbc => Trans.trans (r := tripleLe) (s := tripleLe) hab hbc⟩

/-- `Executor::sort_actions`; Rust's stable slice sort and insertion sort
agree for a total preorder comparator. -/
def sort_actions (actions : List SyncAction) : List SyncAction :=
  List.insertionSort actionLe actions

/-- Outcome of `Executor::execute_action`:
`Ok(Some(bytes))`, `Ok(None)`, `Err(Skipped)` or `Err(Failed)`. -/
inductive ExecOutcome where
  | ok (bytes : Nat)
  | okNone
  | skipped (reason : String)
  | failed (error : String) (kind : SyncErrorKind)
deriving DecidableEq

/-- I/O behaviour of one filesystem-touching action, abstracting the copy,
delete and mkdir primitives the executor calls. -/
inductive ActionIo where
  | done (bytes : Nat)
  | skippedIo (reason : String)
  | failedIo (error : String) (kind : SyncErrorKind)
deriving DecidableEq

/-- `Executor::execute_action`: `Skip` and `Conflict` return `Ok(None)`
unconditionally; every other action performs I/O, abstracted by `env`. -/
def execute_action (env : SyncAction → ActionIo) (a : SyncAction) : ExecOutcome :=
  match a with
  | .skip _ _ => .okNone
  | .conflict _ _ _ _ => .okNone
  | _ =>
    match env a with
    | .done bytes => .ok bytes
    | .skippedIo reason => .skipped reason
    | .failedIo e k => .failed e k

/-- A successfully completed action (`CompletedAction`). -/
structure CompletedAction where
  action : SyncAction
  bytes_transferred : Nat
deriving DecidableEq

/-- A failed action (`FailedAction`). -/
structure FailedAction where
  action : SyncAction
  error : String
  kind : SyncErrorKind
deriving DecidableEq

/-- A skipped action (`SkippedAction`). -/
structure SkippedAction where
  action : SyncAction
  reason : String
deriving DecidableEq

/-- Result of executing sync actions (`ExecutionResult`). -/
structure ExecutionResult where
  completed : List CompletedAction
  failed : List FailedAction
  skipped : List SkippedAction
deriving DecidableEq

/-- The dispatch loop of `Executor::execute` over an already-sorted action
list: each outcome is pushed onto `completed`, `failed` or `skipped`, and
`Ok(None)` outcomes are recorded nowhere. -/
def exec_loop (env : SyncAction → ActionIo) : List SyncAction → ExecutionResult
  | [] => ⟨[], [], []⟩
  | a :: rest =>
    let r := exec_loop env rest
    match execute_action env a with
    | .ok bytes => ⟨⟨a, bytes⟩ :: r.completed, r.failed, r.skipped⟩
    | .okNone => r
    | .skipped reason => ⟨r.completed, r.failed, ⟨a, reason⟩ :: r.skipped⟩
    | .failed e k => ⟨r.completed, ⟨a, e, k⟩ :: r.failed, r.skipped⟩

/-- `Executor::execute`: sort the actions, then run the dispatch loop. -/
def execute (env : SyncAction → ActionIo) (actions : List SyncAction) : ExecutionResult :=
  exec_loop env (sort_actions actions)

/-- File info for pre-copy verification (`FileSnapshot`). -/
structure FileSnapshot where
  size : Nat
  mtime : Int
deriving DecidableEq

/-- Contents-plus-metadata of a file as the executor sees it; `stat` is the
size/mtime pair a `fs::metadata` call reports for it. -/
structure FileData where
  size : Nat
  mtime : Int
deriving DecidableEq

/-- The `stat` of an optional file: `fs::metadata` results, `none` meaning
`NotFound`. -/
def statOf (f : Option FileData) : Option FileSnapshot :=
  f.map (fun d => ⟨d.size, d.mtime⟩)

/-- `Executor::verify_file`: `false` when the file is gone, its size differs
from the snapshot, or its mtime lies outside FAT32 tolerance. -/
def verify_file (stat : Option FileSnapshot) (snapshot : FileSnapshot) : Bool :=
  match stat with
  | none => false
  | some m =>
    if m.size ≠ snapshot.size then false
    else if FAT32_TOLERANCE_SECS < timeDiffSecs m.mtime snapshot.mtime then false
    else true

/-- `Executor::verify_and_copy` on the happy I/O path: the snapshot check
first (returning `Err(Skipped("File changed during sync"))` on failure,
before anything is written), then the copy of `src` over `dst` followed by
the post-copy size check.  The backup of the old `dst` into `.rahzom/_backup`
does not modify `dst` and is not represented. -/
def verify_and_copy (snapshot_entry : Option FileSnapshot)
    (src dst : Option FileData) (expected_size : Nat) :
    ExecOutcome × Option FileData :=
  match snapshot_entry with
  | some snapshot =>
    if !verify_file (statOf src) snapshot then
      (.skipped "File changed during sync", dst)
    else
      copy_phase src dst expected_size
  | none => copy_phase src dst expected_size
where
  copy_phase (src dst : Option FileData) (expected_size : Nat) :
      ExecOutcome × Option FileData :=
    match src with
    | none => (.failed "Failed to open source" .notFound, dst)
    | some d =>
      if d.size ≠ expected_size then
        (.failed "Size mismatch after copy" .ioError, some d)
      else
        (.ok expected_size, some d)

/-- I/O outcome of the one fallible filesystem primitive of a delete (the
rename into `.rahzom/_trash`, or the `remove_file`/`remove_dir`). -/
inductive IoResult where
  | ioOk
  | ioErr (msg : String) (kind : SyncErrorKind)
deriving DecidableEq

/-- The target side of a delete action: whether the target path currently
exists, and how many items its trash directory holds. -/
structure DeleteState where
  present : Bool
  trashed : Nat
deriving DecidableEq

/-- `Executor::delete_file`: a missing target returns `Ok` immediately;
otherwise the file is renamed into the trash (`soft_delete`) or removed. -/
def delete_file (soft_delete : Bool) (io : IoResult) (st : DeleteState) :
    Option (String × SyncErrorKind) × DeleteState :=
  if !st.present then (none, st)
  else
    match io with
    | .ioOk => (none, ⟨false, st.trashed + (if soft_delete then 1 else 0)⟩)
    | .ioErr m k => (some (m, k), st)

/-- A `DeleteLeft`/`DeleteRight` arm of `Executor::execute_action`:
`delete_file` followed by `Ok(Some(0))`. -/
def execute_delete (soft_delete : Bool) (io : IoResult) (st : DeleteState) :
    ExecOutcome × DeleteState :=
  match delete_file soft_delete io st with
  | (none, st2) => (.ok 0, st2)
  | (some (m, k), st2) => (.failed m k, st2)

/-! ## `sync/exclusions.rs` -/

/-- Proper ancestors of a relative path, longest first: the chain of
`Path::parent` results of its rendered string, stopping at the empty parent. -/
def parent_chain (p : List String) : List (List String) :=
  (List.range (p.length - 1)).reverse.map (fun k => p.take (k + 1))

/-- `Exclusions::is_excluded`.  `matchGlob` is the compiled
`GlobSet::is_match` of the pattern set (`compile_patterns`); the path is
checked as rendered, then with a trailing `/` when it is a directory, then
every proper ancestor is checked with a trailing `/` appended. -/
def is_excluded (matchGlob : String → Bool) (path : List String) (is_dir : Bool) : Bool :=
  let path_str := joinPath path
  if matchGlob path_str then true
  else if is_dir && matchGlob (path_str ++ "/") then true
  else (parent_chain path).any (fun parent => matchGlob (joinPath parent ++ "/"))

/-- Modelled from the spec sentence for claim C7: `is_excluded` as the spec
words it, where rule (c) tests each ancestor directory path itself (no
trailing slash) against the glob set. -/
def spec_excluded (matchGlob : String → Bool) (path : List String) (is_dir : Bool) : Bool :=
  let path_str := joinPath path
  matchGlob path_str || (is_dir && matchGlob (path_str ++ "/")) ||
    (parent_chain path).any (fun parent => matchGlob (joinPath parent))

/-! ## Claim C6: snapshot-guarded copy -/

/-- C6: for a copy action whose source path has a snapshot entry, if at copy
time the source no longer exists, or its size differs from the snapshot, or
its mtime differs from the snapshot by more than 2 seconds, the outcome is
`Skipped` with reason "File changed during sync" (never `Completed`) and the
destination is not written. -/
theorem verify_and_copy_skips_changed_source (snapshot : FileSnapshot)
    (src dst : Option FileData) (expected_size : Nat)
    (h : src = none ∨ ∃ d, src = some d ∧
      (d.size ≠ snapshot.size ∨
       FAT32_TOLERANCE_SECS < timeDiffSecs d.mtime snapshot.mtime)) :
    verify_and_copy (some snapshot) src dst expected_size =
      (.skipped "File changed during sync", dst) := by
  rcases h with h | ⟨d, hd, h⟩
  · subst h
    simp [verify_and_copy, verify_file, statOf]
  · subst hd
    rcases h with h | h
    · simp [verify_and_copy, verify_file, statOf, h]
    · have hne : ¬ FAT32_TOLERANCE_SECS < timeDiffSecs d.mtime snapshot.mtime → False := by
        intro hc
        exact hc h
      by_cases hs : d.size = snapshot.size
      · simp [verify_and_copy, verify_file, statOf, hs, h]
      · simp [verify_and_copy, verify_file, statOf, hs]

/-- Witness for C6: a concrete run in which the source grew from 5 to 7 bytes
between snapshot and copy, yielding the skip with the untouched destination. -/
theorem verify_and_copy_skips_changed_source_witness :
    verify_and_copy (some ⟨5, 0⟩) (some ⟨7, 0⟩) none 7 =
      (.skipped "File changed during sync", none) :=
  verify_and_copy_skips_changed_source ⟨5, 0⟩ (some ⟨7, 0⟩) none 7
    (Or.inr ⟨⟨7, 0⟩, rfl, Or.inl (by decide)⟩)

/-! ## Claim C9: idempotent deletes -/

/-- C9: a delete whose target does not exist is recorded as `Completed` with
zero bytes and leaves the state untouched (not an error, not a skip), and a
delete that completed leaves the target absent, so re-executing the same
delete action also completes. -/
theorem delete_missing_target_completes :
    (∀ (soft_delete : Bool) (io : IoResult) (st : DeleteState),
      st.present = false →
      execute_delete soft_delete io st = (.ok 0, st)) ∧
    (∀ (soft_delete : Bool) (io io2 : IoResult) (st : DeleteState),
      (execute_delete soft_delete io st).1 = .ok 0 →
      (execute_delete soft_delete io2 (execute_delete soft_delete io st).2).1 = .ok 0) := by
  constructor
  · intro soft_delete io st h
    simp [execute_delete, delete_file, h]
  · intro soft_delete io io2 st h
    by_cases hp : st.present
    · cases io with
      | ioOk => simp [execute_delete, delete_file, hp]
      | ioErr m k => simp [execute_delete, delete_file, hp] at h
    · simp only [Bool.not_eq_true] at hp
      simp [execute_delete, delete_file, hp]

/-- Witness for C9: deleting an absent target completes with zero bytes, and
a soft delete of a present file followed by the same delete completes twice. -/
theorem delete_missing_target_completes_witness :
    execute_delete true .ioOk ⟨false, 0⟩ = (.ok 0, ⟨false, 0⟩) ∧
    (execute_delete true .ioOk (execute_delete true .ioOk ⟨true, 0⟩).2).1 = .ok 0 :=
  ⟨delete_missing_target_completes.1 true .ioOk ⟨false, 0⟩ rfl,
   delete_missing_target_completes.2 true .ioOk .ioOk ⟨true, 0⟩ (by decide)⟩

/-! ## Claim C7: exclusion rules -/

/-- Counterexample for C7: for the glob set of the single literal pattern
`node_modules` (no trailing slash), whose `GlobSet::is_match` accepts exactly
the string "node_modules", the path "node_modules/x" is NOT excluded by the
code, although its ancestor directory "node_modules" matches the glob, so the
claimed rule (c) — and with it the claimed equivalence and the "in particular"
consequence — fails. -/
theorem is_excluded_ancestor_counterexample :
    is_excluded (fun s => s == "node_modules") ["node_modules", "x"] false = false ∧
    spec_excluded (fun s => s == "node_modules") ["node_modules", "x"] false = true := by
  decide

/-- C7 (amended): `is_excluded` returns true iff (a) the path matches some
glob, or (b) `is_dir` holds and the path with an appended `/` matches some
glob, or (c) some proper ancestor directory path WITH AN APPENDED `/` matches
some glob.  (The code tests `format!("{}/", parent)`, not the bare ancestor.) -/
theorem is_excluded_characterisation (matchGlob : String → Bool)
    (path : List String) (is_dir : Bool) :
    is_excluded matchGlob path is_dir = true ↔
      (matchGlob (joinPath path) = true ∨
       (is_dir = true ∧ matchGlob (joinPath path ++ "/") = true) ∨
       ∃ k, 0 < k ∧ k < path.length ∧
         matchGlob (joinPath (path.take k) ++ "/") = true) := by
  unfold is_excluded parent_chain
  dsimp only
  split_ifs with h1 h2
  · simp [h1]
  · rw [Bool.and_eq_true] at h2
    simp [h1, h2.1, h2.2]
  · have h2' : ¬ (is_dir = true ∧ matchGlob (joinPath path ++ "/") = true) := by
      rw [Bool.and_eq_true] at h2
      tauto
    simp only [List.any_eq_true, List.mem_map, List.mem_reverse, List.mem_range]
    constructor
    · rintro ⟨parent, ⟨k, hk, rfl⟩, hm⟩
      exact Or.inr (Or.inr ⟨k + 1, by omega, by omega, hm⟩)
    · rintro (h | h | ⟨k, hk0, hkl, hm⟩)
      · exact absurd h h1
      · exact absurd h h2'
      · exact ⟨path.take k, ⟨k - 1, by omega, by congr 1; omega⟩, hm⟩

/-! ## Claim C8: scan result ordering -/

/-- Counterexample for C8: with entries `a.b` and `a/b`, the scanner's sort
(`a.path.cmp(&b.path)`, componentwise) puts `a/b` before `a.b`, but byte-wise
on the rendered strings `a.b` (0x2E) precedes `a/b` (0x2F), so the sorted
entries are not in byte-wise lexicographic order of their path strings. -/
theorem sort_entries_not_bytewise :
    ¬ List.Sorted (fun a b : ScanFileEntry => strLe (joinPath a.path) (joinPath b.path))
      (sort_entries
        [⟨["a.b"], 1, 0, false, none, FileAttributes.default⟩,
         ⟨["a", "b"], 2, 0, false, none, FileAttributes.default⟩]) := by
  decide

/-- C8 (amended): the scanner's entries are sorted by Rust's `Path` ordering,
i.e. lexicographically over the component sequences with components compared
byte-wise (this agrees with byte-wise order of the joined strings except when
a separator competes with a byte below `0x2F` at a component boundary). -/
theorem sort_entries_sorted (entries : List ScanFileEntry) :
    List.Sorted scanEntryLe (sort_entries entries) :=
  List.sorted_insertionSort scanEntryLe entries

/-! ## Claim C5: metadata exclusivity -/

/-- Paths currently recorded in the `files` list. -/
def files_paths (m : SyncMetadata) : List String := m.files.map (fun f => f.path)

/-- Paths currently recorded in the `deleted` list. -/
def deleted_paths (m : SyncMetadata) : List String := m.deleted.map (fun d => d.path)

/-- No path occurs simultaneously in `files` and `deleted`. -/
def meta_exclusive (m : SyncMetadata) : Prop :=
  ∀ p ∈ files_paths m, p ∉ deleted_paths m

instance (m : SyncMetadata) : Decidable (meta_exclusive m) := by
  unfold meta_exclusive; infer_instance

/-- Each path occurs at most once in each of the two lists. -/
def meta_paths_nodup (m : SyncMetadata) : Prop :=
  (files_paths m).Nodup ∧ (deleted_paths m).Nodup

instance (m : SyncMetadata) : Decidable (meta_paths_nodup m) := by
  unfold meta_paths_nodup; infer_instance

/-- One mutator call on a `SyncMetadata` value. -/
inductive MetaOp where
  | upsert (file : FileState)
  | markDel (file : DeletedFile)
deriving DecidableEq

/-- Applies one mutator. -/
def apply_op (m : SyncMetadata) : MetaOp → SyncMetadata
  | .upsert f => upsert_file m f
  | .markDel d => mark_deleted m d

/-- Applies a sequence of mutators in order. -/
def apply_ops (m : SyncMetadata) (ops : List MetaOp) : SyncMetadata :=
  ops.foldl apply_op m

/-- Replacing the first entry of a matching path does not change the path
sequence of the list (the replacement carries the same path). -/
theorem replace_first_paths (l : List FileState) (f : FileState) :
    (replace_first l f).map (fun x => x.path) = l.map (fun x => x.path) := by
  induction l with
  | nil => rfl
  | cons x xs ih =>
    by_cases h : x.path == f.path
    · have hx : x.path = f.path := beq_iff_eq.mp h
      simp [replace_first, h, hx]
    · simp [replace_first, h, ih]

/-- One mutator preserves exclusivity and at-most-once-per-list. -/
theorem meta_invariant_step (m : SyncMetadata) (op : MetaOp)
    (hx : meta_exclusive m) (hn : meta_paths_nodup m) :
    meta_exclusive (apply_op m op) ∧ meta_paths_nodup (apply_op m op) := by
  obtain ⟨hnf, hnd⟩ := hn
  have hnf2 : (m.files.map (fun x => x.path)).Nodup := hnf
  have hnd2 : (m.deleted.map (fun x => x.path)).Nodup := hnd
  cases op with
  | upsert f =>
    have hdel : ∀ p, p ∈ (m.deleted.filter (fun d => !(d.path == f.path))).map
        (fun d => d.path) → p ∈ deleted_paths m ∧ p ≠ f.path := by
      intro p hp
      simp only [List.mem_map, List.mem_filter, Bool.not_eq_true', beq_eq_false_iff_ne] at hp
      obtain ⟨d, ⟨hd, hdp⟩, rfl⟩ := hp
      exact ⟨List.mem_map.mpr ⟨d, hd, rfl⟩, hdp⟩
    have hdelnodup : ((m.deleted.filter (fun d => !(d.path == f.path))).map
        (fun d => d.path)).Nodup :=
      (((List.filter_sublist m.deleted)).map (fun d => d.path)).nodup hnd2
    by_cases hex : m.files.any (fun x => x.path == f.path)
    · have heq : apply_op m (.upsert f) =
          { files := replace_first m.files f,
            deleted := m.deleted.filter (fun d => !(d.path == f.path)),
            last_sync := m.last_sync } := by
        simp [apply_op, upsert_file, hex]
      rw [heq]
      refine ⟨?_, ?_, ?_⟩
      · intro p hp hq
        have hp2 : p ∈ files_paths m := by
          simpa [files_paths, replace_first_paths] using hp
        exact hx p hp2 (hdel p hq).1
      · simpa [files_paths, replace_first_paths] using hnf
      · exact hdelnodup
    · have heq : apply_op m (.upsert f) =
          { files := m.files ++ [f],
            deleted := m.deleted.filter (fun d => !(d.path == f.path)),
            last_sync := m.last_sync } := by
        simp [apply_op, upsert_file, hex]
      have hfp : f.path ∉ m.files.map (fun x => x.path) := by
        intro hmem
        obtain ⟨x, hxm, hxp⟩ := List.mem_map.mp hmem
        exact hex (List.any_eq_true.mpr ⟨x, hxm, beq_iff_eq.mpr hxp⟩)
      rw [heq]
      refine ⟨?_, ?_, ?_⟩
      · intro p hp hq
        have hp2 : p ∈ m.files.map (fun x => x.path) ∨ p = f.path := by
          simpa [files_paths] using hp
        rcases hp2 with hp2 | rfl
        · exact hx p hp2 (hdel p hq).1
        · exact (hdel _ hq).2 rfl
      · show ((m.files ++ [f]).map (fun x => x.path)).Nodup
        rw [List.map_append, List.nodup_append]
        refine ⟨hnf2, by simp, ?_⟩
        intro p hp hq
        simp only [List.map_cons, List.map_nil, List.mem_singleton] at hq
        exact hfp (hq ▸ hp)
      · exact hdelnodup
  | markDel d =>
    have hfil : ∀ p, p ∈ (m.files.filter (fun x => !(x.path == d.path))).map
        (fun x => x.path) → p ∈ files_paths m ∧ p ≠ d.path := by
      intro p hp
      simp only [List.mem_map, List.mem_filter, Bool.not_eq_true', beq_eq_false_iff_ne] at hp
      obtain ⟨x, ⟨hxm, hxp⟩, rfl⟩ := hp
      exact ⟨List.mem_map.mpr ⟨x, hxm, rfl⟩, hxp⟩
    have hdfil : ∀ p, p ∈ (m.deleted.filter (fun x => !(x.path == d.path))).map
        (fun x => x.path) → p ∈ deleted_paths m ∧ p ≠ d.path := by
      intro p hp
      simp only [List.mem_map, List.mem_filter, Bool.not_eq_true', beq_eq_false_iff_ne] at hp
      obtain ⟨x, ⟨hxm, hxp⟩, rfl⟩ := hp
      exact ⟨List.mem_map.mpr ⟨x, hxm, rfl⟩, hxp⟩
    have heq : apply_op m (.markDel d) =
        { files := m.files.filter (fun x => !(x.path == d.path)),
          deleted := m.deleted.filter (fun x => !(x.path == d.path)) ++ [d],
          last_sync := m.last_sync } := rfl
    rw [heq]
    refine ⟨?_, ?_, ?_⟩
    · intro p hp hq
      have hp2 := hfil p hp
      have hq2 : p ∈ (m.deleted.filter (fun x => !(x.path == d.path))).map
          (fun x => x.path) ∨ p = d.path := by
        simpa [deleted_paths] using hq
      rcases hq2 with hq2 | rfl
      · exact hx p hp2.1 (hdfil p hq2).1
      · exact hp2.2 rfl
    · exact ((List.filter_sublist m.files).map (fun x => x.path)).nodup hnf2
    · show (((m.deleted.filter (fun x => !(x.path == d.path))) ++ [d]).map
        (fun x => x.path)).Nodup
      rw [List.map_append, List.nodup_append]
      refine ⟨((List.filter_sublist m.deleted).map (fun x => x.path)).nodup hnd2,
        by simp, ?_⟩
      intro p hp hq
      simp only [List.map_cons, List.map_nil, List.mem_singleton] at hq
      exact (hdfil p hp).2 hq

/-- Counterexample for C5: starting from a metadata value whose `files` list
already holds the path "a" twice (no path is in both lists, as the claim's
precondition demands), a single `upsert_file` leaves "a" duplicated in
`files`, so the claimed at-most-once property does not hold. -/
theorem metadata_duplicate_counterexample :
    meta_exclusive ⟨[⟨"a", 1, 0, none, FileAttributes.default, 0⟩,
                     ⟨"a", 2, 0, none, FileAttributes.default, 0⟩], [], none⟩ ∧
    ¬ (files_paths (apply_ops
        ⟨[⟨"a", 1, 0, none, FileAttributes.default, 0⟩,
          ⟨"a", 2, 0, none, FileAttributes.default, 0⟩], [], none⟩
        [.upsert ⟨"a", 3, 0, none, FileAttributes.default, 0⟩])).Nodup := by
  decide

/-- C5 (amended): starting from metadata in which no path occurs in both
lists AND no path occurs twice in the same list (as holds for
`SyncMetadata::new` and everything the mutators produce from it), every
sequence of `upsert_file` / `mark_deleted` operations preserves both
properties. -/
theorem metadata_invariant_preserved (m : SyncMetadata) (ops : List MetaOp)
    (hx : meta_exclusive m) (hn : meta_paths_nodup m) :
    meta_exclusive (apply_ops m ops) ∧ meta_paths_nodup (apply_ops m ops) := by
  induction ops generalizing m with
  | nil => exact ⟨hx, hn⟩
  | cons op ops ih =>
    have hstep := meta_invariant_step m op hx hn
    exact ih (apply_op m op) hstep.1 hstep.2

/-- Witness for C5: the invariant run from the empty metadata through an
upsert, a deletion of the same path, and an unrelated upsert. -/
theorem metadata_invariant_preserved_witness :
    meta_exclusive (apply_ops SyncMetadata.new
      [.upsert ⟨"a", 1, 0, none, FileAttributes.default, 0⟩,
       .markDel ⟨"a", 1, 0, none, 5⟩,
       .upsert ⟨"b", 2, 0, none, FileAttributes.default, 0⟩]) ∧
    meta_paths_nodup (apply_ops SyncMetadata.new
      [.upsert ⟨"a", 1, 0, none, FileAttributes.default, 0⟩,
       .markDel ⟨"a", 1, 0, none, 5⟩,
       .upsert ⟨"b", 2, 0, none, FileAttributes.default, 0⟩]) :=
  metadata_invariant_preserved SyncMetadata.new
    [.upsert ⟨"a", 1, 0, none, FileAttributes.default, 0⟩,
     .markDel ⟨"a", 1, 0, none, 5⟩,
     .upsert ⟨"b", 2, 0, none, FileAttributes.default, 0⟩]
    (by decide) (by decide)

/-! ## Claim C1: execution outcomes partition the actions -/

/-- `execute_action` returns `Ok(None)` exactly on `Skip` and `Conflict`
actions; every other action yields a byte count, a skip reason or an error. -/
theorem execute_action_okNone_iff (env : SyncAction → ActionIo) (a : SyncAction) :
    execute_action env a = .okNone ↔ (a.isSkip || a.isConflict) = true := by
  cases a <;>
    simp only [execute_action, SyncAction.isSkip, SyncAction.isConflict,
      Bool.or_self, Bool.or_false, Bool.false_or] <;>
    (try simp) <;>
    (try (split <;> simp))

/-- The dispatch loop sends each action whose outcome is not `Ok(None)` to
exactly one of the three outcome lists: the recorded actions, taken together,
are a permutation of the non-`Skip`, non-`Conflict` part of the input. -/
theorem exec_loop_partition (env : SyncAction → ActionIo) (l : List SyncAction) :
    ((exec_loop env l).completed.map (fun c => c.action) ++
     (exec_loop env l).failed.map (fun c => c.action) ++
     (exec_loop env l).skipped.map (fun c => c.action)).Perm
      (l.filter (fun a => !(a.isSkip || a.isConflict))) := by
  induction l with
  | nil => simp [exec_loop]
  | cons a rest ih =>
    cases ho : execute_action env a with
    | okNone =>
      have hpred : (a.isSkip || a.isConflict) = true :=
        (execute_action_okNone_iff env a).mp ho
      rw [List.filter_cons_of_neg (by simp [hpred])]
      simpa [exec_loop, ho] using ih
    | ok b =>
      have hpred : (a.isSkip || a.isConflict) = false := by
        rcases h : (a.isSkip || a.isConflict) with _ | _
        · rfl
        · have := (execute_action_okNone_iff env a).mpr h
          rw [ho] at this
          cases this
      rw [List.filter_cons_of_pos (by simp [hpred])]
      simp only [exec_loop, ho, List.map_cons]
      exact (List.cons_append _ _ _ ▸ ih.cons a : _)
    | skipped r2 =>
      have hpred : (a.isSkip || a.isConflict) = false := by
        rcases h : (a.isSkip || a.isConflict) with _ | _
        · rfl
        · have := (execute_action_okNone_iff env a).mpr h
          rw [ho] at this
          cases this
      rw [List.filter_cons_of_pos (by simp [hpred])]
      simp only [exec_loop, ho, List.map_cons]
      exact List.Perm.trans List.perm_middle (ih.cons a)
    | failed e k =>
      have hpred : (a.isSkip || a.isConflict) = false := by
        rcases h : (a.isSkip || a.isConflict) with _ | _
        · rfl
        · have := (execute_action_okNone_iff env a).mpr h
          rw [ho] at this
          cases this
      rw [List.filter_cons_of_pos (by simp [hpred])]
      simp only [exec_loop, ho, List.map_cons]
      exact List.Perm.trans (List.Perm.append_right _ List.perm_middle) (ih.cons a)

/-- Counterexample for C1: a `Skip` action receives no recorded outcome at
all — `Executor::execute` maps `Ok(None)` to none of the three lists — so the
three outcome lists do not partition the processed actions. -/
theorem execute_drops_skip_counterexample :
    execute (fun _ => .done 0) [.skip "a" "r"] =
      (⟨[], [], []⟩ : ExecutionResult) := by
  decide

/-- C1 (amended): the `completed`, `failed` and `skipped` lists of
`Executor::execute` together hold exactly the non-`Skip`, non-`Conflict`
input actions, each exactly once (as a multiset); `Skip` and `Conflict`
actions are dispatched as `Ok(None)` and appear in none of the lists. -/
theorem execute_partitions_nonskip (env : SyncAction → ActionIo)
    (actions : List SyncAction) :
    ((execute env actions).completed.map (fun c => c.action) ++
     (execute env actions).failed.map (fun c => c.action) ++
     (execute env actions).skipped.map (fun c => c.action)).Perm
      (actions.filter (fun a => !(a.isSkip || a.isConflict))) := by
  unfold execute
  exact (exec_loop_partition env (sort_actions actions)).trans
    ((List.perm_insertionSort actionLe actions).filter _)

/-! ## Claim C2: action ordering -/

/-- The class of an action in the claimed ordering rule: directory creations,
then copies, then deletes, then `Skip`/`Conflict`. -/
def class_rank : SyncAction → Nat
  | .createDirLeft _ => 0
  | .createDirRight _ => 0
  | .copyToLeft _ _ => 1
  | .copyToRight _ _ => 1
  | .deleteLeft _ => 2
  | .deleteRight _ => 2
  | .skip _ _ => 3
  | .conflict _ _ _ _ => 3

/-- The ordering rule of the claim between two actions: strictly earlier
class, or same class with shallower-first directory creations and
deeper-first deletes (copies and trailing `Skip`/`Conflict` unconstrained
within their class). -/
def claim_rel (a b : SyncAction) : Prop :=
  class_rank a < class_rank b ∨
    (class_rank a = class_rank b ∧
     (class_rank a = 0 → pathDepth a.path ≤ pathDepth b.path) ∧
     (class_rank a = 2 → pathDepth b.path ≤ pathDepth a.path))

instance : DecidableRel claim_rel := fun a b => by unfold claim_rel; infer_instance

/-- Directory creations precede everything else: the only ordering guarantee
the differ's own sort establishes. -/
def dirs_first_rel (a b : SyncAction) : Prop :=
  b.isCreateDir = true → a.isCreateDir = true

instance : DecidableRel dirs_first_rel := fun a b => by unfold dirs_first_rel; infer_instance

/-- First component of the executor's sort key is the class rank. -/
theorem action_order_fst (a : SyncAction) : (action_order a).1 = class_rank a := by
  cases a <;> rfl

/-- Second component of the sort key of a directory creation is the depth. -/
theorem action_order_snd_dir (a : SyncAction) (h : class_rank a = 0) :
    (action_order a).2.1 = pathDepth a.path := by
  cases a <;> simp_all [class_rank, action_order, SyncAction.path]

/-- Second component of the sort key of a delete is `usize::MAX` minus the
depth. -/
theorem action_order_snd_del (a : SyncAction) (h : class_rank a = 2) :
    (action_order a).2.1 = USIZE_MAX - pathDepth a.path := by
  cases a <;> simp_all [class_rank, action_order, SyncAction.path]

/-- The executor's comparator implies the claimed ordering rule (depths up to
`usize::MAX`, which every real path satisfies). -/
theorem actionLe_claim_rel (a b : SyncAction)
    (ha : pathDepth a.path ≤ USIZE_MAX) (hb : pathDepth b.path ≤ USIZE_MAX)
    (h : actionLe a b) : claim_rel a b := by
  unfold actionLe tripleLe at h
  rw [action_order_fst a, action_order_fst b] at h
  unfold claim_rel
  rcases h with h | ⟨heq, h2⟩
  · exact Or.inl h
  · have hle : (action_order a).2.1 ≤ (action_order b).2.1 := by
      rcases h2 with h2 | ⟨h2, _⟩ <;> omega
    refine Or.inr ⟨heq, ?_, ?_⟩
    · intro h0
      have hb0 : class_rank b = 0 := by omega
      rw [action_order_snd_dir a h0, action_order_snd_dir b hb0] at hle
      exact hle
    · intro h2r
      have hb2 : class_rank b = 2 := by omega
      rw [action_order_snd_del a h2r, action_order_snd_del b hb2] at hle
      omega

/-- Any stable dirs-first partition is pairwise `dirs_first_rel`. -/
theorem sort_dirs_first_pairwise (l : List SyncAction) :
    List.Pairwise dirs_first_rel (sort_dirs_first l) := by
  unfold sort_dirs_first
  rw [List.pairwise_append]
  refine ⟨List.pairwise_of_forall_mem_list ?_, List.pairwise_of_forall_mem_list ?_, ?_⟩
  · intro a ha b _ _
    exact (List.mem_filter.mp ha).2
  · intro a _ b hb hc
    exact absurd hc (by simpa using (List.mem_filter.mp hb).2)
  · intro a _ b hb hc
    exact absurd hc (by simpa using (List.mem_filter.mp hb).2)

/-- Counterexample for C2: a scan pair on which `diff` emits a `DeleteLeft`
before a `CopyToLeft` (the left-side loop runs before the right-side loop and
the final sort only moves directory creations forward), violating the claimed
copies-before-deletes rule; the hash-map iteration orders used are listed and
verified to enumerate the key sets, and the conflict order is empty as the
case-conflict set is. -/
theorem diff_order_counterexample :
    (["d.txt"] : List String).Perm
      (mapKeys (build_map [⟨["d.txt"], 10, 0, false, none, FileAttributes.default⟩])) ∧
    (["c.txt"] : List String).Perm
      (mapKeys (build_map [⟨["c.txt"], 5, 0, false, none, FileAttributes.default⟩])) ∧
    ([] : List String) = case_conflict_list ["d.txt"] ["c.txt"] ∧
    ¬ List.Pairwise claim_rel
      (diff_actions ⟨[⟨["d.txt"], 10, 0, false, none, FileAttributes.default⟩]⟩
        ⟨[⟨["c.txt"], 5, 0, false, none, FileAttributes.default⟩]⟩
        ⟨[⟨"d.txt", 10, 0, none, FileAttributes.default, 0⟩], [], none⟩
        ⟨[⟨"d.txt", 10, 0, none, FileAttributes.default, 0⟩], [], none⟩
        ["d.txt"] ["c.txt"] []) := by
  decide

/-- C2 (amended): the executor's re-sort always satisfies the full ordering
rule — `CreateDir*` before `CopyTo*` before `Delete*` before
`Skip`/`Conflict`, with shallower directory creations first and deeper
deletes first — while the list emitted by `diff` itself only guarantees that
`CreateDir*` actions precede all other actions. -/
theorem executor_sort_claim_ordered :
    (∀ actions : List SyncAction,
      (∀ a ∈ actions, pathDepth a.path ≤ USIZE_MAX) →
      List.Pairwise claim_rel (sort_actions actions)) ∧
    (∀ (ls rs : ScanResult) (lmeta rmeta : SyncMetadata) (lo ro co : List String),
      List.Pairwise dirs_first_rel (diff_actions ls rs lmeta rmeta lo ro co)) := by
  constructor
  · intro actions h
    have hs : List.Pairwise actionLe (sort_actions actions) :=
      List.sorted_insertionSort actionLe actions
    have hmem : ∀ x ∈ sort_actions actions, x ∈ actions := fun x hx =>
      (List.perm_insertionSort actionLe actions).subset hx
    exact hs.imp_of_mem (fun {x y} hx hy hr =>
      actionLe_claim_rel x y (h x (hmem x hx)) (h y (hmem y hy)) hr)
  · intro ls rs lmeta rmeta lo ro co
    exact sort_dirs_first_pairwise _

/-- Witness for C2: the ordering rule holds on a concrete shuffled action
list, and dirs-first holds on a concrete diff. -/
theorem executor_sort_claim_ordered_witness :
    List.Pairwise claim_rel
      (sort_actions [.deleteLeft "x", .copyToRight "a/b" 1, .createDirRight "a",
                     .skip "s" "r", .deleteRight "x/y/z"]) ∧
    List.Pairwise dirs_first_rel
      (diff_actions ⟨[⟨["a.txt"], 1, 0, false, none, FileAttributes.default⟩]⟩ ⟨[]⟩
        SyncMetadata.new SyncMetadata.new ["a.txt"] [] []) :=
  ⟨executor_sort_claim_ordered.1 _ (by decide),
   executor_sort_claim_ordered.2 _ _ _ _ _ _ _⟩

/-! ## Claim C3: determinism of `diff` -/

/-- Claim C3 fails in the code: `diff` iterates `left_files`/`right_files`
(std `HashMap`s with randomized per-instance seeds) and emits case conflicts
from a `HashSet`, so the emission order is not a function of the inputs.  For
one fixed input — two fresh files on the left, nothing on the right, empty
metadata — both listed iteration orders are enumerations of the same key set
(first two conjuncts), yet the two runs produce different action sequences
(last conjunct); only the dirs-first sort is applied afterwards, which does
not restore a canonical order. -/
theorem diff_depends_on_iteration_order :
    (["a.txt", "b.txt"] : List String).Perm
      (mapKeys (build_map [⟨["a.txt"], 100, 0, false, none, FileAttributes.default⟩,
                           ⟨["b.txt"], 50, 0, false, none, FileAttributes.default⟩])) ∧
    (["b.txt", "a.txt"] : List String).Perm
      (mapKeys (build_map [⟨["a.txt"], 100, 0, false, none, FileAttributes.default⟩,
                           ⟨["b.txt"], 50, 0, false, none, FileAttributes.default⟩])) ∧
    diff_actions
        ⟨[⟨["a.txt"], 100, 0, false, none, FileAttributes.default⟩,
          ⟨["b.txt"], 50, 0, false, none, FileAttributes.default⟩]⟩
        ⟨[]⟩ SyncMetadata.new SyncMetadata.new ["a.txt", "b.txt"] [] [] ≠
      diff_actions
        ⟨[⟨["a.txt"], 100, 0, false, none, FileAttributes.default⟩,
          ⟨["b.txt"], 50, 0, false, none, FileAttributes.default⟩]⟩
        ⟨[]⟩ SyncMetadata.new SyncMetadata.new ["b.txt", "a.txt"] [] [] := by
  decide

/-! ## Lookup-map lemmas for the differ -/

/-- A key occurs in `mapKeys` iff the `any` test of `map_insert` fires. -/
theorem any_key_iff (m : List (String × DFileEntry)) (k : String) :
    m.any (fun p => p.1 == k) = true ↔ k ∈ mapKeys m := by
  simp only [List.any_eq_true, mapKeys, List.mem_map]
  constructor
  · rintro ⟨q, hq, hqe⟩
    exact ⟨q, hq, beq_iff_eq.mp hqe⟩
  · rintro ⟨q, hq, hqe⟩
    exact ⟨q, hq, beq_iff_eq.mpr hqe⟩

/-- `HashMap::insert` either keeps the key list (existing key) or appends the
new key. -/
theorem map_insert_keys (m : List (String × DFileEntry)) (k : String) (v : DFileEntry) :
    mapKeys (map_insert m k v) =
      if m.any (fun p => p.1 == k) then mapKeys m else mapKeys m ++ [k] := by
  unfold map_insert
  by_cases h : m.any (fun p => p.1 == k) = true
  · rw [if_pos h, if_pos h]
    simp only [mapKeys, List.map_map]
    refine List.map_congr_left ?_
    intro q _
    by_cases hq : q.1 == k
    · have hqe : q.1 = k := beq_iff_eq.mp hq
      simp [Function.comp, hq, hqe]
    · simp [Function.comp, hq]
  · rw [if_neg h, if_neg h]
    simp [mapKeys]

/-- Keys of the built lookup map are distinct. -/
theorem build_map_keys_nodup (entries : List ScanFileEntry) :
    (mapKeys (build_map entries)).Nodup := by
  suffices h : ∀ m : List (String × DFileEntry), (mapKeys m).Nodup →
      (mapKeys (entries.foldl (fun m e => map_insert m (entryKey e) (toDEntry e)) m)).Nodup by
    exact h [] (by simp [mapKeys])
  induction entries with
  | nil => intro m hm; simpa using hm
  | cons e es ih =>
    intro m hm
    simp only [List.foldl_cons]
    refine ih _ ?_
    rw [map_insert_keys]
    by_cases h : m.any (fun p => p.1 == entryKey e) = true
    · rw [if_pos h]; exact hm
    · rw [if_neg h]
      have hk : entryKey e ∉ mapKeys m := fun hmem =>
        h ((any_key_iff m (entryKey e)).mpr hmem)
      rw [List.nodup_append]
      exact ⟨hm, List.nodup_singleton _, by
        intro x hx hx2
        rw [List.mem_singleton] at hx2
        exact hk (hx2 ▸ hx)⟩

/-- `HashMap::get` succeeds exactly on the keys. -/
theorem map_find_isSome_iff (m : List (String × DFileEntry)) (k : String) :
    (map_find m k).isSome = true ↔ k ∈ mapKeys m := by
  unfold map_find
  constructor
  · intro h
    rcases hf : m.find? (fun p => p.1 == k) with _ | q
    · rw [hf] at h; cases h
    · have hq0 := List.find?_some hf
      have hqk : q.1 = k := by simpa using hq0
      have hqm := List.mem_of_find?_eq_some hf
      exact List.mem_map.mpr ⟨q, hqm, hqk⟩
  · intro h
    obtain ⟨q, hq, rfl⟩ := List.mem_map.mp h
    rcases hf : m.find? (fun p => p.1 == q.1) with _ | r
    · exact absurd (by simp : (q.1 == q.1) = true) (List.find?_eq_none.mp hf q hq)
    · simp [hf]

/-! ## Path preservation through the differ -/

/-- `determine_action` emits an action carrying exactly the path it was given. -/
theorem determine_action_path (path : String) (left right : Option DFileEntry)
    (left_prev right_prev : Option FileState) (right_deleted left_deleted : Bool) :
    (determine_action path left right left_prev right_prev
      right_deleted left_deleted).path = path := by
  unfold determine_action
  cases left <;> cases right <;>
    (repeat' split) <;>
    rfl

/-- The case-conflict loop emits an action carrying the conflict path. -/
theorem conflict_action_for_path (lm rm : List (String × DFileEntry))
    (ro : List String) (p : String) :
    (conflict_action_for lm rm ro p).path = p := rfl

/-- A left-loop step emits an action carrying the visited key. -/
theorem left_step_path (lm rm : List (String × DFileEntry))
    (lmeta rmeta : SyncMetadata) (co : List String) (k : String) (a : SyncAction)
    (h : left_step lm rm lmeta rmeta co k = some a) : a.path = k := by
  unfold left_step at h
  split at h
  · cases h
  · split at h
    · cases h
    · injection h with h2
      rw [← h2]
      exact determine_action_path _ _ _ _ _ _ _

/-- A right-loop step emits an action carrying the visited key. -/
theorem right_step_path (lm rm : List (String × DFileEntry))
    (lmeta rmeta : SyncMetadata) (co : List String) (k : String) (a : SyncAction)
    (h : right_step lm rm lmeta rmeta co k = some a) : a.path = k := by
  unfold right_step at h
  split at h
  · cases h
  · split at h
    · cases h
    · split at h
      · cases h
      · injection h with h2
        rw [← h2]
        exact determine_action_path _ _ _ _ _ _ _

/-! ## Counting actions per path -/

/-- Counting actions with a given path over a `filterMap` by a path-preserving
step function on a duplicate-free key list. -/
theorem countP_path_filterMap (f : String → Option SyncAction)
    (hf : ∀ k a, f k = some a → a.path = k) (l : List String) (hl : l.Nodup)
    (p : String) :
    (l.filterMap f).countP (fun a => a.path == p) =
      if p ∈ l ∧ (f p).isSome = true then 1 else 0 := by
  induction l with
  | nil => simp
  | cons k l ih =>
    rw [List.nodup_cons] at hl
    obtain ⟨hkl, hl2⟩ := hl
    rw [List.filterMap_cons]
    rcases hfk : f k with _ | a
    · rw [ih hl2]
      by_cases hpk : p = k
      · subst hpk
        simp [hfk, hkl]
      · simp [List.mem_cons, hpk]
    · rw [List.countP_cons, ih hl2]
      have hap : a.path = k := hf k a hfk
      by_cases hpk : p = k
      · subst hpk
        simp [hap, hkl, hfk]
      · have : (a.path == p) = false := by
          rw [hap]
          exact beq_eq_false_iff_ne.mpr (Ne.symm hpk)
        simp [this, List.mem_cons, hpk]

/-- Counting occurrences in a duplicate-free string list. -/
theorem countP_eq_ite_of_nodup (l : List String) (hl : l.Nodup) (p : String) :
    l.countP (fun c => c == p) = if p ∈ l then 1 else 0 := by
  by_cases h : p ∈ l
  · rw [if_pos h]
    have h1 := List.count_eq_one_of_mem hl h
    simpa [List.count] using h1
  · rw [if_neg h]
    have h1 := List.count_eq_zero_of_not_mem (a := p) h
    simpa [List.count] using h1

/-- Counting actions with a given path among the case-conflict actions. -/
theorem countP_path_conflicts (lm rm : List (String × DFileEntry))
    (ro co : List String) (hco : co.Nodup) (p : String) :
    (conflict_actions lm rm ro co).countP (fun a => a.path == p) =
      if p ∈ co then 1 else 0 := by
  unfold conflict_actions
  rw [List.countP_map]
  have h1 : co.countP ((fun a => a.path == p) ∘ conflict_action_for lm rm ro) =
      co.countP (fun c => c == p) :=
    List.countP_congr (fun c _ => by
      simp [Function.comp, conflict_action_for_path])
  rw [h1]
  exact countP_eq_ite_of_nodup co hco p

/-- The dirs-first stable partition preserves all counts. -/
theorem countP_sort_dirs_first (l : List SyncAction) (q : SyncAction → Bool) :
    (sort_dirs_first l).countP q = l.countP q :=
  (List.filter_append_perm _ l).countP_eq q

/-! ## Case-insensitive collisions -/

/-- A path participates in a case-insensitive collision: some other scanned
path (on either side) lower-cases to the same string. -/
def collides (lks rks : List String) (p : String) : Prop :=
  ∃ q ∈ lks ++ rks, q ≠ p ∧ lowerStr q = lowerStr p

instance (lks rks : List String) (p : String) : Decidable (collides lks rks p) := by
  unfold collides; infer_instance

/-- Every member of the case-conflict set is a scanned key that collides. -/
theorem is_case_conflict_key_sound (lks rks : List String) (p : String)
    (h : is_case_conflict_key lks rks p = true) :
    (p ∈ lks ∨ p ∈ rks) ∧ collides lks rks p := by
  unfold is_case_conflict_key at h
  simp only [Bool.or_eq_true, Bool.and_eq_true, List.any_eq_true, decide_eq_true_eq,
    Bool.not_eq_true', beq_eq_false_iff_ne, beq_iff_eq] at h
  rcases h with (⟨hm, q, hq, hne, hlow⟩ | ⟨hm, q, hq, hne, hlow⟩) | ⟨hm, q, hq, hne, hlow⟩
  · exact ⟨Or.inl hm, q, List.mem_append_left _ hq, hne, hlow⟩
  · exact ⟨Or.inr hm, q, List.mem_append_right _ hq, hne, hlow⟩
  · exact ⟨Or.inl hm, q, List.mem_append_right _ hq, hne, hlow⟩

/-- Membership in the listed case-conflict set is exactly the `HashSet`
membership test. -/
theorem mem_case_conflict_list (lks rks : List String) (p : String) :
    p ∈ case_conflict_list lks rks ↔ is_case_conflict_key lks rks p = true := by
  unfold case_conflict_list
  rw [List.mem_filter, List.mem_dedup]
  constructor
  · exact fun h => h.2
  · intro h
    refine ⟨?_, h⟩
    rcases (is_case_conflict_key_sound lks rks p h).1 with hm | hm
    · exact List.mem_append_left _ hm
    · exact List.mem_append_right _ hm

/-- The listed case-conflict set is duplicate-free. -/
theorem case_conflict_list_nodup (lks rks : List String) :
    (case_conflict_list lks rks).Nodup :=
  (List.nodup_dedup _).filter _

/-- A non-colliding path never trips the lower-case guard of the two loops. -/
theorem guard_false_of_not_collides (lks rks co : List String)
    (hco_mem : ∀ c ∈ co, is_case_conflict_key lks rks c = true)
    (p : String) (hnc : ¬ collides lks rks p) :
    co.any (fun c => lowerStr c == lowerStr p) = false := by
  rw [← Bool.not_eq_true]
  intro h
  obtain ⟨c, hc, hlow⟩ := List.any_eq_true.mp h
  have hlow2 : lowerStr c = lowerStr p := beq_iff_eq.mp hlow
  have hsound := is_case_conflict_key_sound lks rks c (hco_mem c hc)
  by_cases hcp : c = p
  · subst hcp
    exact hnc hsound.2
  · refine hnc ⟨c, ?_, hcp, hlow2⟩
    rcases hsound.1 with hm | hm
    · exact List.mem_append_left _ hm
    · exact List.mem_append_right _ hm

/-! ## Claim C10: exactly one action per scanned path -/

/-- C10: for hash-map iteration orders enumerating the key sets and a
conflict order enumerating the case-conflict set, `diff` emits exactly one
action for every path present in at least one scan and free of
case-insensitive collisions, and no action at all for a path present in
neither scan. -/
theorem diff_emits_one_action_per_path
    (ls rs : ScanResult) (lmeta rmeta : SyncMetadata) (lo ro co : List String)
    (hlo : lo.Perm (mapKeys (build_map ls.entries)))
    (hro : ro.Perm (mapKeys (build_map rs.entries)))
    (hco : co.Perm (case_conflict_list (mapKeys (build_map ls.entries))
      (mapKeys (build_map rs.entries))))
    (p : String) :
    (((p ∈ mapKeys (build_map ls.entries) ∨ p ∈ mapKeys (build_map rs.entries)) ∧
      ¬ collides (mapKeys (build_map ls.entries)) (mapKeys (build_map rs.entries)) p) →
      (diff_actions ls rs lmeta rmeta lo ro co).countP (fun a => a.path == p) = 1) ∧
    ((p ∉ mapKeys (build_map ls.entries) ∧ p ∉ mapKeys (build_map rs.entries)) →
      (diff_actions ls rs lmeta rmeta lo ro co).countP (fun a => a.path == p) = 0) := by
  have hlknd := build_map_keys_nodup ls.entries
  have hrknd := build_map_keys_nodup rs.entries
  have hlond : lo.Nodup := hlo.nodup_iff.mpr hlknd
  have hrond : ro.Nodup := hro.nodup_iff.mpr hrknd
  have hcond : co.Nodup := hco.nodup_iff.mpr (case_conflict_list_nodup _ _)
  have hco_mem : ∀ c ∈ co, is_case_conflict_key (mapKeys (build_map ls.entries))
      (mapKeys (build_map rs.entries)) c = true := fun c hc =>
    (mem_case_conflict_list _ _ c).mp (hco.mem_iff.mp hc)
  have hsplit : (diff_actions ls rs lmeta rmeta lo ro co).countP (fun a => a.path == p) =
      (conflict_actions (build_map ls.entries) (build_map rs.entries) ro co).countP
        (fun a => a.path == p) +
      (lo.filterMap (left_step (build_map ls.entries) (build_map rs.entries)
        lmeta rmeta co)).countP (fun a => a.path == p) +
      (ro.filterMap (right_step (build_map ls.entries) (build_map rs.entries)
        lmeta rmeta co)).countP (fun a => a.path == p) := by
    unfold diff_actions
    rw [countP_sort_dirs_first, List.countP_append, List.countP_append]
  rw [hsplit,
    countP_path_conflicts _ _ _ _ hcond,
    countP_path_filterMap _ (left_step_path _ _ _ _ _) _ hlond,
    countP_path_filterMap _ (right_step_path _ _ _ _ _) _ hrond]
  constructor
  · rintro ⟨hmem, hnc⟩
    have hpnco : p ∉ co := by
      intro hpc
      exact hnc (is_case_conflict_key_sound _ _ p (hco_mem p hpc)).2
    have hguard := guard_false_of_not_collides _ _ co hco_mem p hnc
    rcases hmem with hml | hmr
    · have hplo : p ∈ lo := hlo.mem_iff.mpr hml
      have hlf : (map_find (build_map ls.entries) p).isSome = true :=
        (map_find_isSome_iff _ p).mpr hml
      obtain ⟨le, hle⟩ := Option.isSome_iff_exists.mp hlf
      have hleft : (left_step (build_map ls.entries) (build_map rs.entries)
          lmeta rmeta co p).isSome = true := by
        simp [left_step, hle, hguard]
      have hright : (right_step (build_map ls.entries) (build_map rs.entries)
          lmeta rmeta co p).isSome = false := by
        rcases h2 : map_find (build_map rs.entries) p with _ | re
        · simp [right_step, h2]
        · simp [right_step, h2, hlf]
      simp [hpnco, hplo, hleft, hright]
    · by_cases hml : p ∈ mapKeys (build_map ls.entries)
      · have hplo : p ∈ lo := hlo.mem_iff.mpr hml
        have hlf : (map_find (build_map ls.entries) p).isSome = true :=
          (map_find_isSome_iff _ p).mpr hml
        obtain ⟨le, hle⟩ := Option.isSome_iff_exists.mp hlf
        have hleft : (left_step (build_map ls.entries) (build_map rs.entries)
            lmeta rmeta co p).isSome = true := by
          simp [left_step, hle, hguard]
        have hright : (right_step (build_map ls.entries) (build_map rs.entries)
            lmeta rmeta co p).isSome = false := by
          rcases h2 : map_find (build_map rs.entries) p with _ | re
          · simp [right_step, h2]
          · simp [right_step, h2, hlf]
        simp [hpnco, hplo, hleft, hright]
      · have hpro : p ∈ ro := hro.mem_iff.mpr hmr
        have hplo : p ∉ lo := fun hc => hml (hlo.mem_iff.mp hc)
        have hrf : (map_find (build_map rs.entries) p).isSome = true :=
          (map_find_isSome_iff _ p).mpr hmr
        obtain ⟨re, hre⟩ := Option.isSome_iff_exists.mp hrf
        have hlf : (map_find (build_map ls.entries) p).isSome = false := by
          rw [← Bool.not_eq_true]
          intro hc
          exact hml ((map_find_isSome_iff _ p).mp hc)
        have hright : (right_step (build_map ls.entries) (build_map rs.entries)
            lmeta rmeta co p).isSome = true := by
          simp [right_step, hre, hlf, hguard]
        simp [hpnco, hplo, hpro, hright]
  · rintro ⟨hml, hmr⟩
    have hpnco : p ∉ co := by
      intro hpc
      rcases (is_case_conflict_key_sound _ _ p (hco_mem p hpc)).1 with hm | hm
      · exact hml hm
      · exact hmr hm
    have hplo : p ∉ lo := fun hc => hml (hlo.mem_iff.mp hc)
    have hpro : p ∉ ro := fun hc => hmr (hro.mem_iff.mp hc)
    simp [hpnco, hplo, hpro]

/-- Witness for C10: a left-only file and a right-only file each receive
exactly one action, and an absent path receives none. -/
theorem diff_emits_one_action_per_path_witness :
    ((diff_actions ⟨[⟨["a.txt"], 1, 0, false, none, FileAttributes.default⟩]⟩
        ⟨[⟨["b.txt"], 2, 0, false, none, FileAttributes.default⟩]⟩
        SyncMetadata.new SyncMetadata.new ["a.txt"] ["b.txt"] []).countP
      (fun a => a.path == "a.txt") = 1) ∧
    ((diff_actions ⟨[⟨["a.txt"], 1, 0, false, none, FileAttributes.default⟩]⟩
        ⟨[⟨["b.txt"], 2, 0, false, none, FileAttributes.default⟩]⟩
        SyncMetadata.new SyncMetadata.new ["a.txt"] ["b.txt"] []).countP
      (fun a => a.path == "zzz") = 0) :=
  ⟨(diff_emits_one_action_per_path
      ⟨[⟨["a.txt"], 1, 0, false, none, FileAttributes.default⟩]⟩
      ⟨[⟨["b.txt"], 2, 0, false, none, FileAttributes.default⟩]⟩
      SyncMetadata.new SyncMetadata.new ["a.txt"] ["b.txt"] []
      (by decide) (by decide) (by decide) "a.txt").1 ⟨by decide, by decide⟩,
   (diff_emits_one_action_per_path
      ⟨[⟨["a.txt"], 1, 0, false, none, FileAttributes.default⟩]⟩
      ⟨[⟨["b.txt"], 2, 0, false, none, FileAttributes.default⟩]⟩
      SyncMetadata.new SyncMetadata.new ["a.txt"] ["b.txt"] []
      (by decide) (by decide) (by decide) "zzz").2 ⟨by decide, by decide⟩⟩

/-! ## Claim C4: the equality predicate and copy suppression -/

/-- Membership is unchanged by the dirs-first stable partition. -/
theorem mem_sort_dirs_first (l : List SyncAction) (a : SyncAction) :
    a ∈ sort_dirs_first l ↔ a ∈ l :=
  (List.filter_append_perm (fun x => x.isCreateDir) l).mem_iff

/-- Where each action of a diff comes from: the case-conflict loop, the
left-side loop, or the right-side loop. -/
theorem mem_diff_actions (ls rs : ScanResult) (lmeta rmeta : SyncMetadata)
    (lo ro co : List String) (a : SyncAction) :
    a ∈ diff_actions ls rs lmeta rmeta lo ro co ↔
      ((∃ c ∈ co, conflict_action_for (build_map ls.entries) (build_map rs.entries) ro c = a) ∨
       (∃ k ∈ lo, left_step (build_map ls.entries) (build_map rs.entries)
          lmeta rmeta co k = some a) ∨
       (∃ k ∈ ro, right_step (build_map ls.entries) (build_map rs.entries)
          lmeta rmeta co k = some a)) := by
  unfold diff_actions conflict_actions
  dsimp only
  rw [mem_sort_dirs_first]
  simp [List.mem_append, List.mem_map, List.mem_filterMap, or_assoc]

/-- When the two entries of a path compare equal, `determine_action` emits a
`Skip` (for the directory pair or for identical files). -/
theorem determine_action_equal_skip (p : String) (l r : DFileEntry)
    (lp rp : Option FileState) (rd ld : Bool) (h : files_equal l r = true) :
    determine_action p (some l) (some r) lp rp rd ld =
      (if l.is_dir && r.is_dir then SyncAction.skip p "Directory exists on both sides"
       else SyncAction.skip p "Files are identical") := by
  unfold determine_action
  by_cases hd : (l.is_dir && r.is_dir) = true
  · simp [hd]
  · simp [hd, h]

/-- Counterexample for C4: left side holds the equal file `a.txt` and a
case-colliding `A.txt`, right side holds the same `a.txt`.  The entries at
`a.txt` are equal on both sides, yet the diff treats `a.txt` as a case
conflict and emits a `Conflict` — no `Skip` action with path `a.txt` appears
(the listed orders are verified enumerations of the key sets and of the
case-conflict set). -/
theorem files_equal_conflict_counterexample :
    map_find (build_map [⟨["a.txt"], 1, 0, false, none, FileAttributes.default⟩,
        ⟨["A.txt"], 1, 0, false, none, FileAttributes.default⟩]) "a.txt" =
      some ⟨1, 0, false, none⟩ ∧
    map_find (build_map [⟨["a.txt"], 1, 0, false, none, FileAttributes.default⟩]) "a.txt" =
      some ⟨1, 0, false, none⟩ ∧
    files_equal ⟨1, 0, false, none⟩ ⟨1, 0, false, none⟩ = true ∧
    (["A.txt", "a.txt"] : List String).Perm
      (case_conflict_list
        (mapKeys (build_map [⟨["a.txt"], 1, 0, false, none, FileAttributes.default⟩,
          ⟨["A.txt"], 1, 0, false, none, FileAttributes.default⟩]))
        (mapKeys (build_map [⟨["a.txt"], 1, 0, false, none, FileAttributes.default⟩]))) ∧
    (diff_actions
        ⟨[⟨["a.txt"], 1, 0, false, none, FileAttributes.default⟩,
          ⟨["A.txt"], 1, 0, false, none, FileAttributes.default⟩]⟩
        ⟨[⟨["a.txt"], 1, 0, false, none, FileAttributes.default⟩]⟩
        SyncMetadata.new SyncMetadata.new
        ["a.txt", "A.txt"] ["a.txt"] ["A.txt", "a.txt"]).all
      (fun a => !(a.isSkip && a.path == "a.txt")) = true := by
  decide

/-- C4 (amended): two file entries are judged equal by `files_equal` iff
their sizes match, their mtimes differ by at most 2 seconds, and, when both
carry hashes, the hashes agree (hashes unchecked otherwise); and for every
path whose entries on the two sides are equal, `diff` never emits a copy for
that path, and — when the path is moreover free of case-insensitive
collisions — every action it emits for that path is a `Skip`. -/
theorem files_equal_paths_skipped :
    (∀ a b : DFileEntry, files_equal a b = true ↔
      (a.size = b.size ∧ timeDiffSecs a.mtime b.mtime ≤ FAT32_TOLERANCE_SECS ∧
       ∀ ha hb, a.hash = some ha → b.hash = some hb → ha = hb)) ∧
    (∀ (ls rs : ScanResult) (lmeta rmeta : SyncMetadata) (lo ro co : List String),
      co.Perm (case_conflict_list (mapKeys (build_map ls.entries))
        (mapKeys (build_map rs.entries))) →
      ∀ (p : String) (le re : DFileEntry),
        map_find (build_map ls.entries) p = some le →
        map_find (build_map rs.entries) p = some re →
        files_equal le re = true →
        (∀ a ∈ diff_actions ls rs lmeta rmeta lo ro co, a.path = p → a.isCopy = false) ∧
        (¬ collides (mapKeys (build_map ls.entries)) (mapKeys (build_map rs.entries)) p →
          ∀ a ∈ diff_actions ls rs lmeta rmeta lo ro co, a.path = p → a.isSkip = true)) := by
  constructor
  · intro a b
    unfold files_equal
    split_ifs with h1 h2
    · simp [h1]
    · constructor
      · intro h; cases h
      · rintro ⟨_, hle, _⟩
        omega
    · have hsz : a.size = b.size := by omega
      have hte : timeDiffSecs a.mtime b.mtime ≤ FAT32_TOLERANCE_SECS := le_of_not_lt h2
      rcases hha : a.hash with _ | ha <;> rcases hhb : b.hash with _ | hb <;>
        simp [hsz, hte, hha, hhb]
  · intro ls rs lmeta rmeta lo ro co hco p le re hle hre heq
    have hstep : ∀ a : SyncAction,
        left_step (build_map ls.entries) (build_map rs.entries) lmeta rmeta co p =
          some a →
        a = (if le.is_dir && re.is_dir then SyncAction.skip p "Directory exists on both sides"
             else SyncAction.skip p "Files are identical") := by
      intro a ha
      unfold left_step at ha
      simp only [hle] at ha
      by_cases hg : co.any (fun c => lowerStr c == lowerStr p) = true
      · rw [if_pos hg] at ha; cases ha
      · rw [if_neg hg] at ha
        injection ha with ha
        rw [← ha, hre]
        exact determine_action_equal_skip p le re _ _ _ _ heq
    have hrightnone : ∀ a : SyncAction,
        right_step (build_map ls.entries) (build_map rs.entries) lmeta rmeta co p ≠
          some a := by
      intro a ha
      unfold right_step at ha
      simp [hre, hle] at ha
    constructor
    · intro a hmem hpath
      rcases (mem_diff_actions ls rs lmeta rmeta lo ro co a).mp hmem with
        ⟨c, _, hc⟩ | ⟨k, _, hk⟩ | ⟨k, _, hk⟩
      · rw [← hc]
        rfl
      · have hkp : k = p := by rw [← left_step_path _ _ _ _ _ k a hk, hpath]
        subst hkp
        rw [hstep a hk]
        by_cases hd : (le.is_dir && re.is_dir) = true <;>
          simp [hd, SyncAction.isCopy]
      · have hkp : k = p := by rw [← right_step_path _ _ _ _ _ k a hk, hpath]
        subst hkp
        exact absurd hk (hrightnone a)
    · intro hnc a hmem hpath
      rcases (mem_diff_actions ls rs lmeta rmeta lo ro co a).mp hmem with
        ⟨c, hcmem, hc⟩ | ⟨k, _, hk⟩ | ⟨k, _, hk⟩
      · have hcp : c = p := by rw [← hpath, ← hc]; rfl
        subst hcp
        have hcck := (mem_case_conflict_list _ _ c).mp (hco.mem_iff.mp hcmem)
        exact absurd (is_case_conflict_key_sound _ _ c hcck).2 hnc
      · have hkp : k = p := by rw [← left_step_path _ _ _ _ _ k a hk, hpath]
        subst hkp
        rw [hstep a hk]
        by_cases hd : (le.is_dir && re.is_dir) = true <;>
          simp [hd, SyncAction.isSkip]
      · have hkp : k = p := by rw [← right_step_path _ _ _ _ _ k a hk, hpath]
        subst hkp
        exact absurd hk (hrightnone a)

/-- Witness for C4: the characterisation evaluated on two concrete equal
entries, and the copy suppression on a concrete two-sided equal file. -/
theorem files_equal_paths_skipped_witness :
    (files_equal ⟨3, 10, false, none⟩ ⟨3, 11, false, none⟩ = true ↔
      ((3 : Nat) = 3 ∧ timeDiffSecs 10 11 ≤ FAT32_TOLERANCE_SECS ∧
       ∀ ha hb, (none : Option String) = some ha → (none : Option String) = some hb →
         ha = hb)) ∧
    (∀ a ∈ diff_actions ⟨[⟨["a.txt"], 1, 0, false, none, FileAttributes.default⟩]⟩
        ⟨[⟨["a.txt"], 1, 0, false, none, FileAttributes.default⟩]⟩
        SyncMetadata.new SyncMetadata.new ["a.txt"] ["a.txt"] [],
      a.path = "a.txt" → a.isCopy = false) :=
  ⟨files_equal_paths_skipped.1 ⟨3, 10, false, none⟩ ⟨3, 11, false, none⟩,
   (files_equal_paths_skipped.2
      ⟨[⟨["a.txt"], 1, 0, false, none, FileAttributes.default⟩]⟩
      ⟨[⟨["a.txt"], 1, 0, false, none, FileAttributes.default⟩]⟩
      SyncMetadata.new SyncMetadata.new ["a.txt"] ["a.txt"] []
      (by decide) "a.txt" ⟨1, 0, false, none⟩ ⟨1, 0, false, none⟩
      (by decide) (by decide) (by decide)).1⟩
